import Mathlib

/-!
Shallow embedding of the ATM state machine in
`src/final-project/state-machine-atm/src/atm.rs`.

The Rust `u64` type is modelled as `Nat` with an explicit `% 2 ^ 64`
wherever the source performs arithmetic that can overflow (the decoding
loop `keys_into_u64`).  The hash collaborator `crate::traits::hash` is
excluded from the spec's scope as an opaque external function, so every
definition that calls it is parameterised by an arbitrary
`h : List Key → Nat`.
-/

namespace ATM

/-- Modulus of Rust's `u64` arithmetic. -/
def U64MOD : Nat := 2 ^ 64

/-- The keys on the ATM keypad (`enum Key`). -/
inductive Key where
  | one
  | two
  | three
  | four
  | enter
deriving DecidableEq

/-- Something you can do to the ATM (`enum Action`). -/
inductive Action where
  | swipeCard (hashPin : Nat)
  | pressKey (k : Key)

/-- The various states of authentication (`enum Auth`). -/
inductive Auth where
  | waiting
  | authenticating (digest : Nat)
  | authenticated
deriving DecidableEq

/-- The ATM state (`struct Atm`): cash reserve, authentication phase,
keystroke register. -/
structure Atm where
  cash_inside : Nat
  expected_pin_hash : Auth
  keystroke_register : List Key
deriving DecidableEq

/-- Numeric digit value of a key (`impl From<Key> for u64`). -/
def keyToU64 : Key → Nat
  | .one => 1
  | .two => 2
  | .three => 3
  | .four => 4
  | .enter => 5

/-- The loop of `keys_into_u64`: walks the reversed register keeping the
current place value `unit` and the accumulator `value`; both are `u64`,
so each multiplication and addition is reduced modulo `2 ^ 64`
(Rust release-profile wrapping semantics). -/
def keysLoop : List Key → Nat → Nat → Nat
  | [], _, value => value
  | k :: rest, unit, value =>
      keysLoop rest ((unit * 10) % U64MOD)
        ((value + unit * keyToU64 k) % U64MOD)

/-- `keys_into_u64`: decode the keystroke register into an amount, the
first key pressed being the most significant digit. -/
def keysIntoU64 (keys : List Key) : Nat :=
  if keys.length = 0 then 0
  else keysLoop keys.reverse 1 0

/-- The same loop with Rust's overflow checks (debug-profile semantics):
`none` models the panic raised when `value += unit * v` or `unit *= 10`
exceeds the `u64` range. -/
def keysLoopChecked : List Key → Nat → Nat → Option Nat
  | [], _, value => some value
  | k :: rest, unit, value =>
      if U64MOD ≤ unit * keyToU64 k then none
      else if U64MOD ≤ value + unit * keyToU64 k then none
      else if U64MOD ≤ unit * 10 then none
      else keysLoopChecked rest (unit * 10) (value + unit * keyToU64 k)

/-- `keys_into_u64` under overflow-checked (debug-profile) arithmetic. -/
def keysIntoU64Checked (keys : List Key) : Option Nat :=
  if keys.length = 0 then some 0
  else keysLoopChecked keys.reverse 1 0

/-- `Atm::swip_card`: ignored unless the phase is `Waiting`, in which
case the phase becomes `Authenticating(hash_pin)`. -/
def swipCard (s : Atm) (hashPin : Nat) : Atm :=
  if s.expected_pin_hash ≠ Auth.waiting then s
  else { s with expected_pin_hash := Auth.authenticating hashPin }

/-- `Atm::pin_check`: on `Enter`, hash the register and compare with the
expected digest; on a digit, append it to the register. -/
def pinCheck (h : List Key → Nat) (s : Atm) (key : Key) : Atm :=
  match key with
  | .enter =>
      if Auth.authenticating (h s.keystroke_register) = s.expected_pin_hash then
        { s with expected_pin_hash := Auth.authenticated,
                 keystroke_register := [] }
      else
        { s with keystroke_register := [],
                 expected_pin_hash := Auth.waiting }
  | _ => { s with keystroke_register := s.keystroke_register ++ [key] }

/-- `Atm::withdraw`: on `Enter`, decode the register and deduct the
amount when the reserve covers it; either way reset to `Waiting` with an
empty register.  On a digit, append it to the register. -/
def withdraw (s : Atm) (key : Key) : Atm :=
  match key with
  | .enter =>
      let v := keysIntoU64 s.keystroke_register
      { cash_inside := if v ≤ s.cash_inside then s.cash_inside - v
                       else s.cash_inside,
        expected_pin_hash := Auth.waiting,
        keystroke_register := [] }
  | _ => { s with keystroke_register := s.keystroke_register ++ [key] }

/-- `Atm::key_press`: dispatch on the current phase. -/
def keyPress (h : List Key → Nat) (s : Atm) (key : Key) : Atm :=
  match s.expected_pin_hash with
  | .authenticating _ => pinCheck h s key
  | .authenticated => withdraw s key
  | _ => s

/-- `Atm::next_state` (the `StateMachine` implementation): clone the
state and apply the action. -/
def nextState (h : List Key → Nat) (s : Atm) (t : Action) : Atm :=
  match t with
  | .swipeCard v => swipCard s v
  | .pressKey k => keyPress h s k

/-- Initial state of the lifecycle: caller-chosen reserve, phase
`Waiting`, empty register. -/
def initial (cash : Nat) : Atm :=
  { cash_inside := cash, expected_pin_hash := Auth.waiting,
    keystroke_register := [] }

/-- Run a sequence of actions from a state. -/
def run (h : List Key → Nat) (s : Atm) : List Action → Atm
  | [] => s
  | a :: rest => run h (nextState h s a) rest

/-- Modelled from the spec's words (not from the source), for the
refinement claim about decoding: the big-endian positional decimal value
of a register, the first key pressed being the most significant digit. -/
def decimalOfKeys (keys : List Key) : Nat :=
  keys.foldl (fun a k => 10 * a + keyToU64 k) 0


/-- Well-formedness of an `Auth` value: a stored digest fits in `u64`. -/
def wfAuth : Auth → Prop
  | .authenticating d => d < U64MOD
  | _ => True

/-- Well-formedness of a state: every `u64` field is below `2 ^ 64`. -/
def wfAtm (s : Atm) : Prop :=
  s.cash_inside < U64MOD ∧ wfAuth s.expected_pin_hash

/-- Well-formedness of an action: a swiped digest fits in `u64`. -/
def wfAction : Action → Prop
  | .swipeCard d => d < U64MOD
  | _ => True

/-- A concrete stand-in for the opaque hash collaborator, used only to
instantiate universally quantified statements at a specific input. -/
def hashStub : List Key → Nat :=
  fun ks => keysIntoU64 ks

/-- Helper: the decoding loop keeps its accumulator below the modulus. -/
theorem keysLoop_lt (rs : List Key) (unit value : Nat)
    (hv : value < U64MOD) : keysLoop rs unit value < U64MOD := by
  induction rs generalizing unit value with
  | nil => exact hv
  | cons k rest ih =>
      exact ih _ _ (Nat.mod_lt _ (by simp [U64MOD]))

/-- Helper: the decoded register always fits in `u64`. -/
theorem keysIntoU64_lt (keys : List Key) : keysIntoU64 keys < U64MOD := by
  unfold keysIntoU64
  split
  · simp [U64MOD]
  · exact keysLoop_lt _ _ _ (by simp [U64MOD])

/-- Helper: the loop value of `keys_into_u64`, in closed form: the
little-endian digit value of the remaining keys, folded into the
accumulator, all modulo `2 ^ 64`. -/
theorem keysLoop_spec (rs : List Key) (unit value : Nat)
    (hv : value < U64MOD) :
    keysLoop rs unit value =
      (value + unit * Nat.ofDigits 10 (rs.map keyToU64)) % U64MOD := by
  induction rs generalizing unit value with
  | nil =>
      simp [keysLoop, Nat.ofDigits_nil, Nat.mod_eq_of_lt hv]
  | cons k rest ih =>
      have hM : 0 < U64MOD := by simp [U64MOD]
      rw [keysLoop, ih _ _ (Nat.mod_lt _ hM)]
      have h1 : (value + unit * keyToU64 k) % U64MOD ≡
          value + unit * keyToU64 k [MOD U64MOD] := Nat.mod_modEq _ _
      have h2 : (unit * 10) % U64MOD ≡ unit * 10 [MOD U64MOD] :=
        Nat.mod_modEq _ _
      have h3 := h1.add (h2.mul_right (Nat.ofDigits 10 (rest.map keyToU64)))
      have h4 : ((value + unit * keyToU64 k) % U64MOD +
          (unit * 10) % U64MOD * Nat.ofDigits 10 (rest.map keyToU64)) % U64MOD =
          (value + unit * keyToU64 k +
            unit * 10 * Nat.ofDigits 10 (rest.map keyToU64)) % U64MOD := h3
      rw [h4]
      congr 1
      simp [Nat.ofDigits_cons]
      ring

/-- Helper: the big-endian fold equals the little-endian digit value of
the reversed register. -/
theorem decimalOfKeys_eq_ofDigits (keys : List Key) :
    decimalOfKeys keys = Nat.ofDigits 10 ((keys.map keyToU64).reverse) := by
  induction keys using List.reverseRecOn with
  | nil => simp [decimalOfKeys, Nat.ofDigits_nil]
  | append_singleton ks k ih =>
      have hfold : decimalOfKeys (ks ++ [k]) =
          10 * decimalOfKeys ks + keyToU64 k := by
        simp [decimalOfKeys, List.foldl_append]
      rw [hfold, ih]
      simp [Nat.ofDigits_cons]
      ring

/-- Helper: any invariant preserved by one transition holds along every
run. -/
theorem run_inv (h : List Key → Nat) (P : Atm → Prop)
    (hstep : ∀ s a, P s → P (nextState h s a)) :
    ∀ acts s, P s → P (run h s acts)
  | [], _, hs => hs
  | a :: rest, s, hs => run_inv h P hstep rest _ (hstep s a hs)

/-- Helper: one transition preserves the invariant that the register is
empty whenever the phase is `Waiting`. -/
theorem step_waiting_empty (h : List Key → Nat) (s : Atm) (a : Action)
    (hs : s.expected_pin_hash = Auth.waiting → s.keystroke_register = []) :
    (nextState h s a).expected_pin_hash = Auth.waiting →
      (nextState h s a).keystroke_register = [] := by
  obtain ⟨c, ph, reg⟩ := s
  cases a with
  | swipeCard d =>
      cases ph <;> simp_all [nextState, swipCard]
  | pressKey k =>
      cases ph with
      | waiting => simpa [nextState, keyPress] using hs
      | authenticating d =>
          cases k <;> simp [nextState, keyPress, pinCheck]
          split <;> simp
      | authenticated =>
          cases k <;> simp [nextState, keyPress, withdraw]

/-- Helper: one transition preserves the invariant that `Enter` never
occurs in the register. -/
theorem step_no_enter (h : List Key → Nat) (s : Atm) (a : Action)
    (hs : s.keystroke_register.count Key.enter = 0) :
    (nextState h s a).keystroke_register.count Key.enter = 0 := by
  obtain ⟨c, ph, reg⟩ := s
  cases a with
  | swipeCard d =>
      cases ph <;> simp_all [nextState, swipCard]
  | pressKey k =>
      cases ph with
      | waiting => simpa [nextState, keyPress] using hs
      | authenticating d =>
          cases k <;> simp_all [nextState, keyPress, pinCheck, List.count_append]
          split <;> simp
      | authenticated =>
          cases k <;> simp_all [nextState, keyPress, withdraw, List.count_append]

/-- Claim C1: in phase `Authenticated`, pressing `Enter` decodes the
register to an amount, deducts it exactly when the reserve covers it and
otherwise leaves the reserve unchanged; in both outcomes the phase
becomes `Waiting` and the register is cleared. -/
theorem authenticated_enter_withdraws (h : List Key → Nat) (cash : Nat)
    (reg : List Key) :
    nextState h ⟨cash, Auth.authenticated, reg⟩ (Action.pressKey Key.enter) =
      ⟨if keysIntoU64 reg ≤ cash then cash - keysIntoU64 reg else cash,
        Auth.waiting, []⟩ := rfl

/-- Claim C2: in phase `Authenticating(expected)`, pressing `Enter`
hashes the register; on a match the phase becomes `Authenticated`,
otherwise `Waiting` with the expected digest discarded; the register is
cleared and the reserve unchanged in both outcomes. -/
theorem authenticating_enter_checks_pin (h : List Key → Nat)
    (cash expected : Nat) (reg : List Key) :
    nextState h ⟨cash, Auth.authenticating expected, reg⟩
        (Action.pressKey Key.enter) =
      if h reg = expected then ⟨cash, Auth.authenticated, []⟩
      else ⟨cash, Auth.waiting, []⟩ := by
  by_cases hc : h reg = expected <;>
    simp [nextState, keyPress, pinCheck, hc]

/-- Claim C3: swiping a card in any phase other than `Waiting` leaves
the state unchanged. -/
theorem swipe_nonwaiting_noop (h : List Key → Nat) (s : Atm) (d : Nat)
    (hs : s.expected_pin_hash ≠ Auth.waiting) :
    nextState h s (Action.swipeCard d) = s := by
  simp [nextState, swipCard, hs]

/-- Witness for C3 at a concrete authenticated state. -/
theorem swipe_nonwaiting_noop_witness :
    (Atm.mk 10 Auth.authenticated []).expected_pin_hash ≠ Auth.waiting ∧
      nextState hashStub (Atm.mk 10 Auth.authenticated [])
        (Action.swipeCard 3) = Atm.mk 10 Auth.authenticated [] :=
  ⟨by decide, swipe_nonwaiting_noop hashStub _ 3 (by decide)⟩

/-- Claim C4: register decoding is big-endian positional decimal (the
first key pressed is most significant), reduced modulo `2 ^ 64`; the
register `[One, Four]` decodes to `14` and the empty register to `0`. -/
theorem decode_big_endian :
    (∀ ks : List Key, keysIntoU64 ks = decimalOfKeys ks % U64MOD) ∧
      keysIntoU64 [Key.one, Key.four] = 14 ∧ keysIntoU64 [] = 0 := by
  refine ⟨?_, by decide, by decide⟩
  intro ks
  rw [decimalOfKeys_eq_ofDigits]
  unfold keysIntoU64
  split
  · rename_i hlen
    obtain rfl : ks = [] := List.length_eq_zero.mp hlen
    simp [Nat.ofDigits_nil]
  · rw [keysLoop_spec _ _ _ (by simp [U64MOD])]
    simp [List.map_reverse]

/-- Claim C5: the cash reserve never increases under any transition. -/
theorem cash_nonincreasing (h : List Key → Nat) (s : Atm) (a : Action) :
    (nextState h s a).cash_inside ≤ s.cash_inside := by
  obtain ⟨c, ph, reg⟩ := s
  cases a with
  | swipeCard d => cases ph <;> simp [nextState, swipCard]
  | pressKey k =>
      cases ph with
      | waiting => simp [nextState, keyPress]
      | authenticating d =>
          cases k <;> simp [nextState, keyPress, pinCheck]
          split <;> simp
      | authenticated =>
          cases k <;> simp [nextState, keyPress, withdraw]
          split <;> simp [Nat.sub_le]

/-- Claim C6: the withdrawal subtraction happens only under the guard
`amount ≤ reserve`, where it is exact (no underflow); above the reserve
the cash is untouched. -/
theorem withdraw_no_underflow (h : List Key → Nat) (cash : Nat)
    (reg : List Key) :
    (keysIntoU64 reg ≤ cash →
      (nextState h ⟨cash, Auth.authenticated, reg⟩
          (Action.pressKey Key.enter)).cash_inside + keysIntoU64 reg = cash) ∧
    (cash < keysIntoU64 reg →
      (nextState h ⟨cash, Auth.authenticated, reg⟩
          (Action.pressKey Key.enter)).cash_inside = cash) := by
  constructor
  · intro hle
    simp [nextState, keyPress, withdraw, hle]
  · intro hlt
    simp [nextState, keyPress, withdraw, Nat.not_le.mpr hlt]

/-- Witness for C6 at reserve `10` and register `[One]`. -/
theorem withdraw_no_underflow_witness :
    (nextState hashStub (Atm.mk 10 Auth.authenticated [Key.one])
        (Action.pressKey Key.enter)).cash_inside + keysIntoU64 [Key.one] = 10 :=
  (withdraw_no_underflow hashStub 10 [Key.one]).1 (by decide)

/-- Claim C7: pressing any key while the phase is `Waiting` is the
identity on the state. -/
theorem presskey_waiting_identity (h : List Key → Nat) (cash : Nat)
    (reg : List Key) (k : Key) :
    nextState h ⟨cash, Auth.waiting, reg⟩ (Action.pressKey k) =
      ⟨cash, Auth.waiting, reg⟩ := rfl

/-- Counterexample for C8: with overflow-checked `u64` arithmetic (the
Rust debug profile), decoding a 20-key register traps, because the place
value `unit` is multiplied past `2 ^ 64 - 1` inside the loop; so the
decoding loop's multiplications do overflow and the claimed freedom from
overflow traps fails on this input. -/
theorem decode_checked_overflow :
    keysIntoU64Checked (List.replicate 20 Key.one) = none := by decide

/-- Claim C8 (amended): under wrapping modulo-`2 ^ 64` `u64` arithmetic
the transition function is total — the decoded amount always lies below
`2 ^ 64` and every transition maps a well-formed state and action to a
well-formed state. -/
theorem nextState_total_wrapping :
    (∀ ks : List Key, keysIntoU64 ks < U64MOD) ∧
    (∀ (h : List Key → Nat) (s : Atm) (a : Action),
      wfAtm s → wfAction a → wfAtm (nextState h s a)) := by
  refine ⟨keysIntoU64_lt, ?_⟩
  intro h s a hs ha
  obtain ⟨c, ph, reg⟩ := s
  obtain ⟨hc, hph⟩ := hs
  cases a with
  | swipeCard d =>
      cases ph <;>
        simp_all [nextState, swipCard, wfAtm, wfAuth, wfAction]
  | pressKey k =>
      cases ph with
      | waiting => exact ⟨hc, hph⟩
      | authenticating d =>
          cases k <;> simp_all [nextState, keyPress, pinCheck, wfAtm, wfAuth]
          split <;> simp [wfAuth, hc]
      | authenticated =>
          cases k <;> simp_all [nextState, keyPress, withdraw, wfAtm, wfAuth]
          split
          · exact lt_of_le_of_lt (Nat.sub_le _ _) hc
          · exact hc

/-- Witness for the amended C8 at a concrete well-formed state. -/
theorem nextState_total_wrapping_witness :
    wfAtm (nextState hashStub (initial 10) (Action.swipeCard 3)) :=
  nextState_total_wrapping.2 hashStub (initial 10) (Action.swipeCard 3)
    ⟨by decide, trivial⟩ (show (3 : Nat) < U64MOD by decide)

/-- Claim C9: in every state reachable from an initial state, a
`Waiting` phase comes with an empty keystroke register. -/
theorem reachable_waiting_empty (h : List Key → Nat) (cash : Nat)
    (acts : List Action)
    (hw : (run h (initial cash) acts).expected_pin_hash = Auth.waiting) :
    (run h (initial cash) acts).keystroke_register = [] :=
  run_inv h
    (fun s => s.expected_pin_hash = Auth.waiting → s.keystroke_register = [])
    (fun s a hs => step_waiting_empty h s a hs) acts (initial cash)
    (fun _ => rfl) hw

/-- Witness for C9 after a swipe followed by a failed PIN entry. -/
theorem reachable_waiting_empty_witness :
    (run hashStub (initial 5)
        [Action.swipeCard 7, Action.pressKey Key.enter]).keystroke_register
      = [] :=
  reachable_waiting_empty hashStub 5
    [Action.swipeCard 7, Action.pressKey Key.enter] (by decide)

/-- Claim C10: in every state reachable from an initial state, the
keystroke register never contains the `Enter` key (its occurrence count
is zero), so the digit value `5` of `Enter` is never folded into a
decoded amount or a hashed PIN sequence. -/
theorem reachable_no_enter (h : List Key → Nat) (cash : Nat)
    (acts : List Action) :
    ((run h (initial cash) acts).keystroke_register).count Key.enter = 0 :=
  run_inv h (fun s => s.keystroke_register.count Key.enter = 0)
    (fun s a hs => step_no_enter h s a hs) acts (initial cash) rfl

end ATM
